import Mathlib

/-!
Verification of the gami AMI client (gami.go) against its specification.

The Go source is shallowly embedded: pure string manipulation from the Go
standard library is modelled on ASCII character lists, the mutable
`AMIClient` state (the pending-action registry `response` and the channels it
holds) becomes an explicit `ClientState` record threaded through the
operations, and the channel returned by `Action` is identified by a numeric
handle into a channel heap so that delivery to "the channel returned by
Action" can be traced across later steps.  A goroutine that blocks forever
(a send on a nil channel) is modelled by the `Option.none` outcome of
`notifyResponse`.
-/

namespace Gami

/-! ## ASCII fragments of the Go string library used by gami.go -/

/-- Go `unicode`-based separator test used by `strings.Title` (ASCII fragment):
letters, digits and underscore are not separators, everything else is. -/
def isSeparator (c : Char) : Bool :=
  !(c.isAlpha || c.isDigit || c == '_')

/-- Character-list worker for `strings.Title`: upper-case a character exactly
when the previous character is a separator (the scan starts from `' '`). -/
def titleAux : Char → List Char → List Char
  | _, [] => []
  | prev, c :: cs => (if isSeparator prev then c.toUpper else c) :: titleAux c cs

/-- Go `strings.Title` (ASCII fragment). -/
def goTitle (s : String) : String :=
  String.mk (titleAux ' ' s.data)

/-- Go `strings.ToLower` (ASCII fragment). -/
def goToLower (s : String) : String :=
  String.mk (s.data.map Char.toLower)

/-- Go `unicode.IsSpace` (ASCII fragment). -/
def isGoSpace (c : Char) : Bool :=
  c == ' ' || c == '\t' || c == '\n' || c == '\r' || c == '\x0b' || c == '\x0c'

/-- Go `strings.TrimSpace` (ASCII fragment). -/
def goTrimSpace (s : String) : String :=
  String.mk (((s.data.dropWhile isGoSpace).reverse.dropWhile isGoSpace).reverse)

/-- The header-name normalization applied by `normaliser`:
`strings.Title(strings.ToLower(k))`. -/
def normKey (k : String) : String :=
  goTitle (goToLower k)

/-- Character-list worker for Go `strings.Split` with a one-character
separator: splits at every occurrence of the separator. -/
def splitChar (sep : Char) : List Char → List (List Char)
  | [] => [[]]
  | c :: rest =>
    match splitChar sep rest with
    | [] => if c == sep then [[], []] else [[c]]
    | h :: t => if c == sep then [] :: h :: t else (c :: h) :: t

/-- Go `strings.Split(s, ",")` as used by `newEvent` on the Privilege header. -/
def goSplitComma (s : String) : List String :=
  (splitChar ',' s.data).map String.mk

/-- Substring search worker for Go `strings.Contains`. -/
def hasSub (sub : List Char) : List Char → Bool
  | [] => sub.isEmpty
  | c :: rest => sub.isPrefixOf (c :: rest) || hasSub sub rest

/-- Go `strings.Contains`. -/
def goContains (s sub : String) : Bool :=
  hasSub sub.data s.data

/-- Decimal digit character, as produced by `fmt.Sprintf("%d", _)`. -/
def digitCh (d : Nat) : Char :=
  match d with
  | 0 => '0' | 1 => '1' | 2 => '2' | 3 => '3' | 4 => '4'
  | 5 => '5' | 6 => '6' | 7 => '7' | 8 => '8' | _ => '9'

/-- Decimal digits of a natural number, most significant first. -/
def decNats (n : Nat) : List Nat :=
  if h : n < 10 then [n]
  else
    have : n / 10 < n := Nat.div_lt_self (by omega) (by omega)
    decNats (n / 10) ++ [n % 10]

/-- Model of Go `fmt.Sprintf("%d", n)` for a non-negative `int64` value. -/
def sprintfD (n : Nat) : String :=
  String.mk ((decNats n).map digitCh)

/-! ## Association lists: the Go `map` values of gami.go

Go map reads, writes and deletes are modelled on association lists whose
observable semantics is `alookup` (first binding wins; `ainsert` removes any
previous binding, as a Go map assignment does). -/

/-- Go map read `l[key]` returning the zero value marker `none` when absent. -/
def alookup {α β : Type} [DecidableEq α] : List (α × β) → α → Option β
  | [], _ => none
  | (k, v) :: rest, key => if k = key then some v else alookup rest key

/-- Go map delete `delete(l, key)`. -/
def aerase {α β : Type} [DecidableEq α] : List (α × β) → α → List (α × β)
  | [], _ => []
  | (k, v) :: rest, key =>
    if k = key then aerase rest key else (k, v) :: aerase rest key

/-- Go map write `l[key] = v`. -/
def ainsert {α β : Type} [DecidableEq α] (l : List (α × β)) (key : α) (v : β) :
    List (α × β) :=
  (key, v) :: aerase l key

/-! ## Data model of gami.go -/

/-- `Params` for the actions (gami.go line 28), as an association list. -/
abbrev Params := List (String × String)

/-- `AMIResponse` from an action (gami.go lines 61-65). -/
structure AMIResponse where
  ID : String
  Status : String
  Params : List (String × String)
deriving DecidableEq, Repr

/-- `AMIEvent`, representation of an Event read (gami.go lines 68-74). -/
structure AMIEvent where
  ID : String
  Privilege : List String
  Params : List (String × String)
deriving DecidableEq, Repr

/-- A buffered response channel `chan *AMIResponse` of capacity one:
the list of values currently buffered and whether `close` has been called. -/
structure RespChan where
  buf : List AMIResponse
  closed : Bool
deriving DecidableEq, Repr

/-- The mutable state of an `AMIClient` relevant to action correlation:
`response` is the pending-action registry `map[string]chan *AMIResponse`;
channels are identified by numeric handles allocated from `nextChan` and
live in the heap `chans`, so a channel survives (and stays observable)
after its registry entry is deleted. -/
structure ClientState where
  nextChan : Nat
  chans : List (Nat × RespChan)
  response : List (String × Nat)
deriving DecidableEq, Repr

/-- The sentinel errors of gami.go (lines 22-24) together with the ad-hoc
`errors.New` values the file creates. -/
inductive GamiError where
  | errNoAMI
  | errNoEvent
  | errInvalidParams
  | notResponse
  | ioError (msg : String)
deriving DecidableEq, Repr

/-! ## normaliser (gami.go lines 313-325) -/

/-- The `for k, v := range *p` loop of `normaliser`: each iteration deletes
the key from the caller's map and stores the normalized pair in `fixp`.
Returns the pair (caller-visible map after the loop, `fixp`). -/
def normaliserLoop : List (String × String) → Params → Params → Params × Params
  | [], residual, fixp => (residual, fixp)
  | (k, v) :: rest, residual, fixp =>
    normaliserLoop rest (aerase residual k) (ainsert fixp (normKey k) (goTrimSpace v))

/-- Embedding of `(client *AMIClient) normaliser(p *Params)`.  The clock
reading `time.Now().UnixNano()` is the explicit argument `now`.  Returns the
pair (map object the caller passed in, after the call) and (the fresh map
`fixp` that the pointed-to variable is rebound to by `*p = fixp`). -/
def normaliser (p : Params) (now : Nat) : Params × Params :=
  let lr := normaliserLoop p p []
  let fixp :=
    if (alookup lr.2 "Actionid").isSome then lr.2
    else ainsert lr.2 "Actionid" (sprintfD now)
  (lr.1, fixp)

/-! ## Action (gami.go lines 134-162) -/

/-- Externally visible effects of one `Action` call, in program order:
registering a delivery slot in the registry, and writing the serialized
request to the transport via `conn.PrintfLine`. -/
inductive ActionEvent where
  | registered (id : String) (c : Nat)
  | wrote (out : String)
deriving DecidableEq, Repr

/-- Result of one `Action` call: the client state after the call, the map
object the caller passed in (as the caller sees it after the call; `none`
models a nil map), the returned value (channel handle and action id, or the
returned error), and the ordered effect trace. -/
structure ActionResult where
  state : ClientState
  callerMap : Option Params
  result : Except GamiError (Nat × String)
  trace : List ActionEvent
deriving Repr

/-- The `for k, v := range p` serialization loop of `Action`. -/
def serializeParams (p : Params) : String :=
  p.foldl (fun acc kv => acc ++ kv.1 ++ ": " ++ kv.2 ++ "\r\n") ""

/-- Embedding of `(client *AMIClient) Action(p Params)`.  `p = none` models a
nil `Params` map; the transport write is assumed to succeed (the write-error
return path carries no registry change and is not needed by any claim). -/
def Action (st : ClientState) (p : Option Params) (now : Nat) : ActionResult :=
  match p with
  | none => ⟨st, none, .error .errInvalidParams, []⟩
  | some q =>
    let n := normaliser q now
    let p' := n.2
    if (alookup p' "Action").isSome then
      let aid := (alookup p' "Actionid").getD ""
      match alookup st.response aid with
      | some c =>
        ⟨st, some n.1, .ok (c, aid), [.wrote (serializeParams p')]⟩
      | none =>
        let c := st.nextChan
        let st1 : ClientState :=
          ⟨st.nextChan + 1, ainsert st.chans c ⟨[], false⟩,
            ainsert st.response aid c⟩
        ⟨st1, some n.1, .ok (c, aid),
          [.registered aid c, .wrote (serializeParams p')]⟩
    else
      ⟨st, some n.1, .error .errInvalidParams, []⟩

/-! ## notifyResponse (gami.go lines 211-222) -/

/-- Embedding of `notifyResponse`.  The Go code reads
`client.response[response.ID]` with no presence check; a missing key yields
the nil channel and the goroutine blocks forever in the send — that blocked
outcome (and any other blocking send or panicking close) is `none`.  A
completed delivery sends the response, closes the channel and deletes the
registry entry. -/
def notifyResponse (st : ClientState) (r : AMIResponse) : Option ClientState :=
  match alookup st.response r.ID with
  | none => none
  | some c =>
    match alookup st.chans c with
    | none => none
    | some ch =>
      if ch.buf.length < 1 && !ch.closed then
        some ⟨st.nextChan,
              ainsert st.chans c ⟨ch.buf ++ [r], true⟩,
              aerase st.response r.ID⟩
      else none

/-! ## Message classification (gami.go lines 186-199, 225-259) -/

/-- A raw message as produced by `textproto.ReadMIMEHeader`: canonical header
names mapped to their value lists. -/
abbrev MIMEHeader := List (String × List String)

/-- `textproto.MIMEHeader.Get`: first value of the key, `""` when absent. -/
def hget (h : MIMEHeader) (k : String) : String :=
  match alookup h k with
  | some (v :: _) => v
  | _ => ""

/-- Embedding of `newEvent` (gami.go lines 244-259). -/
def newEvent (data : MIMEHeader) : Except GamiError AMIEvent :=
  if hget data "Event" = "" then .error .errNoEvent
  else
    .ok ⟨hget data "Event",
         goSplitComma (hget data "Privilege"),
         (data.filter (fun kv => !(kv.1 == "Event" || kv.1 == "Privilege"))).map
           (fun kv => (kv.1, kv.2.headD ""))⟩

/-- Embedding of `newResponse` (gami.go lines 225-241). -/
def newResponse (data : MIMEHeader) : Except GamiError AMIResponse :=
  if hget data "Response" = "" then .error .notResponse
  else
    .ok ⟨hget data "Actionid",
         hget data "Response",
         (data.filter (fun kv => !(kv.1 == "Response"))).map
           (fun kv => (kv.1, kv.2.headD ""))⟩

/-- Outcome of the response half of one loop iteration of `Run`: the message
was not response-shaped, or `notifyResponse` was invoked and its goroutine
blocked, or it completed delivering and the registry moved to the new state. -/
inductive NotifyOutcome where
  | noResponse
  | blocked
  | delivered (st : ClientState)
deriving DecidableEq, Repr

/-- Everything one successful-read iteration of `Run`'s loop body produces. -/
structure ProcessResult where
  events : List AMIEvent
  errors : List GamiError
  outcome : NotifyOutcome
deriving Repr

/-- Embedding of the body of `Run`'s loop after a successful
`ReadMIMEHeader` (gami.go lines 186-199): the event check and the response
check are executed in sequence on the same message. -/
def processMessage (st : ClientState) (data : MIMEHeader) : ProcessResult :=
  let evPart : List AMIEvent × List GamiError :=
    match newEvent data with
    | .error e => if e ≠ .errNoEvent then ([], [e]) else ([], [])
    | .ok ev => ([ev], [])
  let outcome : NotifyOutcome :=
    match newResponse data with
    | .error _ => .noResponse
    | .ok r =>
      match notifyResponse st r with
      | none => .blocked
      | some st' => .delivered st'
  ⟨evPart.1, evPart.2, outcome⟩

/-! ## Read-failure classification (gami.go lines 167-184) -/

/-- The read errors distinguished by `Run`'s switch. -/
inductive ReadError where
  | econnaborted
  | econnreset
  | econnrefused
  | eof
  | other (msg : String)
deriving DecidableEq, Repr

/-- The two error channels of the client. -/
inductive ErrorSink where
  | netError
  | generalError
deriving DecidableEq, Repr

/-- Embedding of the error switch in `Run`: which channel the error is
pushed onto, and whether the reader then blocks on `waitNewConnection`
before the next read (both branches `continue` to the next iteration). -/
def classifyReadError : ReadError → ErrorSink × Bool
  | .econnaborted => (.netError, true)
  | .econnreset => (.netError, true)
  | .econnrefused => (.netError, true)
  | .eof => (.netError, true)
  | .other _ => (.generalError, false)

/-! ## NewConn banner check (gami.go lines 288-311) -/

/-- Outcome of `NewConn` from the point where the byte stream is
established: the returned error, and whether the raw connection was closed
before returning.  The source returns `errNoAMI` (line 307) without any
`Close` call, so `closedConn` is `false` on every path. -/
structure ConnOutcome where
  result : Except GamiError Unit
  closedConn : Bool
deriving Repr

/-- Embedding of `NewConn` after the transport dial succeeded, parameterized
by the result of `conn.ReadLine()` on the banner. -/
def NewConn (readBanner : Except GamiError String) : ConnOutcome :=
  match readBanner with
  | .error e => ⟨.error e, false⟩
  | .ok label =>
    if goContains label "Asterisk Call Manager" then ⟨.ok (), false⟩
    else ⟨.error .errNoAMI, false⟩

/-! ## Interleavings of Action calls and response deliveries

The registry `client.response` is guarded by `mutexAsyncAction`, a
`sync.RWMutex`: `Action` takes `Lock()` at entry (gami.go line 135), and a
delivery goroutine does `RLock` → send → `close` → `RUnlock` → `Lock` →
`delete` → `Unlock` (lines 213-220).  A goroutine that blocks forever in the
nil-channel send (the C1 bug) therefore holds the read lock forever.  Per
Go's `sync.RWMutex` contract, a goroutine blocked in `Lock()` excludes all
new readers, and a send on a closed channel panics, killing the process.
The lock mode below tracks exactly these states. -/

/-- Lock/liveness mode of the client after a sequence of steps. -/
inductive LockMode where
  /-- No goroutine is stuck holding or awaiting `mutexAsyncAction`. -/
  | normal
  /-- A delivery goroutine blocked in a nil-channel send holds the read
  lock forever; new readers still acquire shared access, but any `Lock()`
  will never return. -/
  | wedged
  /-- Additionally a writer (an `Action` call's `Lock()`, or a delivery's
  `Lock()` before its `delete`) waits forever behind the stuck reader, so
  every later lock acquisition — shared or exclusive — blocks. -/
  | writerBlocked
  /-- A send on a closed channel panicked; the process is dead. -/
  | panicked
deriving DecidableEq, Repr

/-- A client state together with the lock mode of its registry mutex. -/
structure LockedState where
  client : ClientState
  mode : LockMode
deriving Repr

/-- One registry-affecting step: an `Action` call by some caller, or the
processing of one inbound response by the reader's `notifyResponse`. -/
inductive Step where
  | act (p : Params) (now : Nat)
  | notify (r : AMIResponse)

/-- Lock-faithful semantics of one step.

In `normal` mode an `Action` call completes under `Lock()`, and a delivery
either completes all three phases (send, close, delete) or — on the nil
channel of an unregistered identifier — blocks in the send while holding
the read lock, moving the client to `wedged` with the registry unchanged.

In `wedged` mode an `Action` call blocks at its `Lock()` and becomes the
forever-waiting writer (`writerBlocked`); a delivery can still `RLock`
(shared with the stuck reader): on the nil channel it parks as another
stuck reader, on a closed channel the send panics, and on a registered
open slot the send and close complete but the goroutine then blocks at
`Lock()` before its `delete` — the response is handed over yet the
identifier is never removed, and a writer now waits (`writerBlocked`).

In `writerBlocked` mode every acquisition blocks and in `panicked` mode
the process is dead, so no step changes anything. -/
def stepStateL (s : LockedState) : Step → LockedState
  | .act p now =>
    match s.mode with
    | .normal => ⟨(Action s.client (some p) now).state, .normal⟩
    | .wedged => ⟨s.client, .writerBlocked⟩
    | .writerBlocked => ⟨s.client, .writerBlocked⟩
    | .panicked => ⟨s.client, .panicked⟩
  | .notify r =>
    match s.mode with
    | .normal =>
      match alookup s.client.response r.ID with
      | none => ⟨s.client, .wedged⟩
      | some c =>
        match alookup s.client.chans c with
        | none => ⟨s.client, .wedged⟩
        | some ch =>
          if ch.closed then ⟨s.client, .panicked⟩
          else if ch.buf.length < 1 then
            ⟨⟨s.client.nextChan, ainsert s.client.chans c ⟨ch.buf ++ [r], true⟩,
              aerase s.client.response r.ID⟩, .normal⟩
          else ⟨s.client, .wedged⟩
    | .wedged =>
      match alookup s.client.response r.ID with
      | none => ⟨s.client, .wedged⟩
      | some c =>
        match alookup s.client.chans c with
        | none => ⟨s.client, .wedged⟩
        | some ch =>
          if ch.closed then ⟨s.client, .panicked⟩
          else if ch.buf.length < 1 then
            ⟨⟨s.client.nextChan, ainsert s.client.chans c ⟨ch.buf ++ [r], true⟩,
              s.client.response⟩, .writerBlocked⟩
          else ⟨s.client, .wedged⟩
    | .writerBlocked => ⟨s.client, .writerBlocked⟩
    | .panicked => ⟨s.client, .panicked⟩

def runStepsL (s : LockedState) : List Step → LockedState
  | [] => s
  | step :: rest => runStepsL (stepStateL s step) rest

/-- Registry well-formedness maintained by the client: every registered
delivery slot is a live, empty, open channel below the allocation counter,
and no two identifiers share a channel. -/
def Inv (st : ClientState) : Prop :=
  (∀ id c, alookup st.response id = some c →
      c < st.nextChan ∧ alookup st.chans c = some ⟨[], false⟩) ∧
  (∀ c ch, alookup st.chans c = some ch → c < st.nextChan) ∧
  (∀ id₁ id₂ c, alookup st.response id₁ = some c →
      alookup st.response id₂ = some c → id₁ = id₂)

/-- No step of the list is the delivery of a response whose identifier
is `aid`. -/
def NoMatchingNotify (aid : String) (steps : List Step) : Prop :=
  ∀ r : AMIResponse, Step.notify r ∈ steps → r.ID ≠ aid

/-! ## Association-list lemmas -/

theorem alookup_ainsert_self {α β : Type} [DecidableEq α]
    (l : List (α × β)) (k : α) (v : β) : alookup (ainsert l k v) k = some v := by
  simp [ainsert, alookup]

theorem alookup_aerase_self {α β : Type} [DecidableEq α]
    (l : List (α × β)) (k : α) : alookup (aerase l k) k = none := by
  induction l with
  | nil => simp [aerase, alookup]
  | cons kv rest ih =>
    obtain ⟨k', v'⟩ := kv
    by_cases h : k' = k <;> simp [aerase, alookup, h, ih]

theorem alookup_aerase_ne {α β : Type} [DecidableEq α]
    (l : List (α × β)) (k k' : α) (h : k' ≠ k) :
    alookup (aerase l k) k' = alookup l k' := by
  induction l with
  | nil => simp [aerase]
  | cons kv rest ih =>
    obtain ⟨a, b⟩ := kv
    by_cases ha : a = k
    · subst ha
      simp [aerase, alookup, Ne.symm h, ih]
    · by_cases hb : a = k'
      · subst hb
        simp [aerase, alookup, ha, h, ih]
      · simp [aerase, alookup, ha, hb, ih]

theorem alookup_ainsert_ne {α β : Type} [DecidableEq α]
    (l : List (α × β)) (k k' : α) (v : β) (h : k' ≠ k) :
    alookup (ainsert l k v) k' = alookup l k' := by
  simp [ainsert, alookup, Ne.symm h, alookup_aerase_ne l k k' h]

theorem mem_aerase {α β : Type} [DecidableEq α]
    {l : List (α × β)} {k : α} {kv : α × β} (h : kv ∈ aerase l k) :
    kv ∈ l ∧ kv.1 ≠ k := by
  induction l with
  | nil => simp [aerase] at h
  | cons hd rest ih =>
    obtain ⟨a, b⟩ := hd
    by_cases ha : a = k
    · simp [aerase, ha] at h
      rcases ih h with ⟨h1, h2⟩
      exact ⟨List.mem_cons_of_mem _ h1, h2⟩
    · simp [aerase, ha] at h
      rcases h with h | h
      · subst h
        exact ⟨List.mem_cons_self _ _, ha⟩
      · rcases ih h with ⟨h1, h2⟩
        exact ⟨List.mem_cons_of_mem _ h1, h2⟩

theorem mem_ainsert {α β : Type} [DecidableEq α]
    {l : List (α × β)} {k : α} {v : β} {kv : α × β} (h : kv ∈ ainsert l k v) :
    kv = (k, v) ∨ kv ∈ l := by
  simp [ainsert] at h
  rcases h with h | h
  · exact Or.inl h
  · exact Or.inr (mem_aerase h).1

theorem alookup_mem {α β : Type} [DecidableEq α]
    {l : List (α × β)} {k : α} {v : β} (h : alookup l k = some v) :
    (k, v) ∈ l := by
  induction l with
  | nil => simp [alookup] at h
  | cons hd rest ih =>
    obtain ⟨a, b⟩ := hd
    by_cases ha : a = k
    · subst ha
      simp [alookup] at h
      simp [h]
    · simp [alookup, ha] at h
      exact List.mem_cons_of_mem _ (ih h)

/-! ## Injectivity of the decimal formatter -/

/-- Value of a most-significant-first digit list. -/
def numOf (l : List Nat) : Nat :=
  l.foldl (fun a d => 10 * a + d) 0

theorem numOf_append_single (l : List Nat) (d : Nat) :
    numOf (l ++ [d]) = 10 * numOf l + d := by
  simp [numOf, List.foldl_append]

theorem numOf_decNats (n : Nat) : numOf (decNats n) = n := by
  induction n using Nat.strong_induction_on with
  | _ n ih =>
    rw [decNats]
    by_cases h : n < 10
    · simp [h, numOf]
    · have hd : n / 10 < n := Nat.div_lt_self (by omega) (by omega)
      simp only [h, dite_false]
      rw [numOf_append_single, ih (n / 10) hd]
      omega

theorem decNats_injective {m n : Nat} (h : decNats m = decNats n) : m = n := by
  have := numOf_decNats m
  rw [h, numOf_decNats] at this
  omega

theorem decNats_lt_ten (n : Nat) : ∀ d ∈ decNats n, d < 10 := by
  induction n using Nat.strong_induction_on with
  | _ n ih =>
    rw [decNats]
    by_cases h : n < 10
    · simp [h]
    · have hd : n / 10 < n := Nat.div_lt_self (by omega) (by omega)
      simp only [h, dite_false]
      intro d hdm
      rcases List.mem_append.mp hdm with hm | hm
      · exact ih (n / 10) hd d hm
      · simp at hm
        subst hm
        exact Nat.mod_lt _ (by omega)

theorem digitCh_inj_lt {a b : Nat} (ha : a < 10) (hb : b < 10)
    (h : digitCh a = digitCh b) : a = b := by
  have key : ∀ x y : Fin 10, digitCh x.val = digitCh y.val → x = y := by decide
  have := key ⟨a, ha⟩ ⟨b, hb⟩ h
  exact congrArg Fin.val this

theorem map_digitCh_inj : ∀ {l₁ l₂ : List Nat}, (∀ d ∈ l₁, d < 10) →
    (∀ d ∈ l₂, d < 10) → l₁.map digitCh = l₂.map digitCh → l₁ = l₂
  | [], [], _, _, _ => rfl
  | [], _ :: _, _, _, h => by simp at h
  | _ :: _, [], _, _, h => by simp at h
  | a :: l₁, b :: l₂, h₁, h₂, h => by
    simp only [List.map_cons, List.cons.injEq] at h
    have hab : a = b :=
      digitCh_inj_lt (h₁ a (List.mem_cons_self _ _)) (h₂ b (List.mem_cons_self _ _)) h.1
    have : l₁ = l₂ :=
      map_digitCh_inj (fun d hd => h₁ d (List.mem_cons_of_mem _ hd))
        (fun d hd => h₂ d (List.mem_cons_of_mem _ hd)) h.2
    rw [hab, this]

theorem sprintfD_injective {m n : Nat} (h : sprintfD m = sprintfD n) : m = n := by
  have hdata : (decNats m).map digitCh = (decNats n).map digitCh := by
    have := congrArg String.data h
    simpa [sprintfD] using this
  exact decNats_injective (map_digitCh_inj (decNats_lt_ten m) (decNats_lt_ten n) hdata)

/-! ## Lemmas about normaliser -/

theorem mem_normaliserLoop_fixp :
    ∀ (l : List (String × String)) (residual fixp : Params) (kv' : String × String),
      kv' ∈ (normaliserLoop l residual fixp).2 →
      kv' ∈ fixp ∨ ∃ kv ∈ l, kv'.1 = normKey kv.1 ∧ kv'.2 = goTrimSpace kv.2
  | [], _, _, kv', h => Or.inl h
  | (k, v) :: rest, residual, fixp, kv', h => by
    rcases mem_normaliserLoop_fixp rest (aerase residual k)
        (ainsert fixp (normKey k) (goTrimSpace v)) kv' h with hin | ⟨kv, hkv, h1, h2⟩
    · rcases mem_ainsert hin with heq | hin'
      · exact Or.inr ⟨(k, v), List.mem_cons_self _ _, by simp [heq]⟩
      · exact Or.inl hin'
    · exact Or.inr ⟨kv, List.mem_cons_of_mem _ hkv, h1, h2⟩

theorem normaliserLoop_residual_nil :
    ∀ (l : List (String × String)) (residual fixp : Params),
      (∀ kv ∈ residual, ∃ kv' ∈ l, kv'.1 = kv.1) →
      (normaliserLoop l residual fixp).1 = []
  | [], residual, fixp, h => by
    cases residual with
    | nil => rfl
    | cons hd t =>
      rcases h hd (List.mem_cons_self _ _) with ⟨kv', hkv', _⟩
      exact absurd hkv' (List.not_mem_nil _)
  | (k, v) :: rest, residual, fixp, h => by
    apply normaliserLoop_residual_nil rest (aerase residual k)
    intro kv hkv
    rcases mem_aerase hkv with ⟨hmem, hne⟩
    rcases h kv hmem with ⟨kv', hkv', heq⟩
    rcases List.mem_cons.mp hkv' with rfl | hkv'
    · exact absurd heq.symm hne
    · exact ⟨kv', hkv', heq⟩

/-- Every entry of the map produced by `normaliser` is either the generated
`Actionid` entry or the normalization of an entry of the input map. -/
theorem mem_normaliser {p : Params} {now : Nat} {kv' : String × String}
    (h : kv' ∈ (normaliser p now).2) :
    kv' = ("Actionid", sprintfD now) ∨
      ∃ kv ∈ p, kv'.1 = normKey kv.1 ∧ kv'.2 = goTrimSpace kv.2 := by
  simp only [normaliser] at h
  by_cases hs : (alookup (normaliserLoop p p []).2 "Actionid").isSome
  · simp only [hs, if_true] at h
    rcases mem_normaliserLoop_fixp p p [] kv' h with hin | hex
    · exact absurd hin (List.not_mem_nil _)
    · exact Or.inr hex
  · simp only [hs, if_false] at h
    rcases mem_ainsert h with heq | hin
    · exact Or.inl heq
    · rcases mem_normaliserLoop_fixp p p [] kv' hin with hin' | hex
      · exact absurd hin' (List.not_mem_nil _)
      · exact Or.inr hex

/-- After `normaliser` returns, the map object the caller passed in holds no
entries: the loop deleted every original key. -/
theorem normaliser_residual (p : Params) (now : Nat) : (normaliser p now).1 = [] := by
  simp only [normaliser]
  exact normaliserLoop_residual_nil p p [] (fun kv hkv => ⟨kv, hkv, rfl⟩)

theorem normaliserLoop_actionid_none {p : Params}
    (h : ∀ kv ∈ p, normKey kv.1 ≠ "Actionid") :
    alookup (normaliserLoop p p []).2 "Actionid" = none := by
  cases heq : alookup (normaliserLoop p p []).2 "Actionid" with
  | none => rfl
  | some v =>
    rcases mem_normaliserLoop_fixp p p [] _ (alookup_mem heq) with hin | ⟨kv, hkv, h1, _⟩
    · exact absurd hin (List.not_mem_nil _)
    · exact absurd h1.symm (h kv hkv)

/-- When no input key normalizes to `Actionid`, `normaliser` generates the
identifier from the clock reading. -/
theorem normaliser_actionid_generated {p : Params} (now : Nat)
    (h : ∀ kv ∈ p, normKey kv.1 ≠ "Actionid") :
    alookup (normaliser p now).2 "Actionid" = some (sprintfD now) := by
  simp only [normaliser, normaliserLoop_actionid_none h, Option.isSome_none,
    Bool.false_eq_true, if_false]
  exact alookup_ainsert_self _ _ _

/-- When no input key is a casing variant of `Action`, the normalized map
has no `Action` entry. -/
theorem normaliser_action_none {p : Params} (now : Nat)
    (h : ∀ kv ∈ p, normKey kv.1 ≠ "Action") :
    alookup (normaliser p now).2 "Action" = none := by
  cases heq : alookup (normaliser p now).2 "Action" with
  | none => rfl
  | some v =>
    rcases mem_normaliser (alookup_mem heq) with hid | ⟨kv, hkv, h1, _⟩
    · have : "Action" = "Actionid" := congrArg Prod.fst hid
      exact absurd this (by decide)
    · exact absurd h1.symm (h kv hkv)

/-! ## Lemmas about the registry state machine -/

/-- Shape of a completed `notifyResponse` delivery. -/
theorem notify_some_eq {st st' : ClientState} {r : AMIResponse}
    (h : notifyResponse st r = some st') :
    ∃ c ch, alookup st.response r.ID = some c ∧ alookup st.chans c = some ch ∧
      ch.buf.length < 1 ∧ ch.closed = false ∧
      st' = ⟨st.nextChan, ainsert st.chans c ⟨ch.buf ++ [r], true⟩,
             aerase st.response r.ID⟩ := by
  cases hc : alookup st.response r.ID with
  | none => simp [notifyResponse, hc] at h
  | some c =>
    cases hch : alookup st.chans c with
    | none => simp [notifyResponse, hc, hch] at h
    | some ch =>
      by_cases hb : ch.buf.length < 1
      · by_cases hcl : ch.closed
        · simp [notifyResponse, hc, hch, hb, hcl] at h
        · refine ⟨c, ch, rfl, hch, hb, by simpa using hcl, ?_⟩
          simp only [notifyResponse, hc, hch, hb, hcl] at h
          simp at h
          exact h.symm
      · simp [notifyResponse, hc, hch, hb] at h

/-- A completed delivery from a well-formed state: explicit next state,
well-formedness of it, and the facts the correlation claims need. -/
theorem notify_delivered {st : ClientState} {r : AMIResponse} {cid : Nat}
    (hInv : Inv st) (hc : alookup st.response r.ID = some cid) :
    notifyResponse st r =
      some ⟨st.nextChan, ainsert st.chans cid ⟨[r], true⟩, aerase st.response r.ID⟩ ∧
    Inv ⟨st.nextChan, ainsert st.chans cid ⟨[r], true⟩, aerase st.response r.ID⟩ ∧
    (∀ id, alookup (aerase st.response r.ID) id ≠ some cid) := by
  obtain ⟨hlt, hch⟩ := hInv.1 _ _ hc
  constructor
  · simp [notifyResponse, hc, hch]
  constructor
  · refine ⟨?_, ?_, ?_⟩
    · intro id c hid
      have hne : id ≠ r.ID := by
        intro heq
        rw [heq, alookup_aerase_self] at hid
        exact absurd hid (by simp)
      rw [alookup_aerase_ne _ _ _ hne] at hid
      obtain ⟨hlt', hch'⟩ := hInv.1 _ _ hid
      have hcne : c ≠ cid := by
        intro heq
        exact hne (hInv.2.2 id r.ID cid (heq ▸ hid) hc)
      simpa [alookup_ainsert_ne _ _ _ _ hcne, hch'] using hlt'
    · intro c ch hcch
      by_cases hceq : c = cid
      · exact hceq ▸ hlt
      · rw [alookup_ainsert_ne _ _ _ _ hceq] at hcch
        exact hInv.2.1 _ _ hcch
    · intro id₁ id₂ c h1 h2
      have hne1 : id₁ ≠ r.ID := by
        intro heq
        rw [heq, alookup_aerase_self] at h1
        exact absurd h1 (by simp)
      have hne2 : id₂ ≠ r.ID := by
        intro heq
        rw [heq, alookup_aerase_self] at h2
        exact absurd h2 (by simp)
      rw [alookup_aerase_ne _ _ _ hne1] at h1
      rw [alookup_aerase_ne _ _ _ hne2] at h2
      exact hInv.2.2 id₁ id₂ c h1 h2
  · intro id hid
    have hne : id ≠ r.ID := by
      intro heq
      rw [heq, alookup_aerase_self] at hid
      exact absurd hid (by simp)
    rw [alookup_aerase_ne _ _ _ hne] at hid
    exact hne (hInv.2.2 id r.ID cid hid hc)

/-- The state produced by a fresh registration in `Action` is well-formed. -/
theorem act_fresh_Inv {st : ClientState} {aid : String} (hInv : Inv st)
    (haid : alookup st.response aid = none) :
    Inv ⟨st.nextChan + 1, ainsert st.chans st.nextChan ⟨[], false⟩,
         ainsert st.response aid st.nextChan⟩ := by
  unfold Inv
  dsimp only
  refine ⟨?_, ?_, ?_⟩
  · intro id c hid
    by_cases hida : id = aid
    · subst hida
      rw [alookup_ainsert_self] at hid
      obtain rfl : st.nextChan = c := by simpa using hid
      simp [alookup_ainsert_self]
    · rw [alookup_ainsert_ne _ _ _ _ hida] at hid
      obtain ⟨hlt, hch⟩ := hInv.1 _ _ hid
      have hcne : c ≠ st.nextChan := by omega
      rw [alookup_ainsert_ne _ _ _ _ hcne]
      exact ⟨by omega, hch⟩
  · intro c ch hcch
    by_cases hceq : c = st.nextChan
    · omega
    · rw [alookup_ainsert_ne _ _ _ _ hceq] at hcch
      have := hInv.2.1 _ _ hcch
      omega
  · intro id₁ id₂ c h1 h2
    by_cases h1a : id₁ = aid <;> by_cases h2a : id₂ = aid
    · rw [h1a, h2a]
    · subst h1a
      rw [alookup_ainsert_self] at h1
      rw [alookup_ainsert_ne _ _ _ _ h2a] at h2
      obtain rfl : st.nextChan = c := by simpa using h1
      have := (hInv.1 _ _ h2).1
      omega
    · subst h2a
      rw [alookup_ainsert_self] at h2
      rw [alookup_ainsert_ne _ _ _ _ h1a] at h1
      obtain rfl : st.nextChan = c := by simpa using h2
      have := (hInv.1 _ _ h1).1
      omega
    · rw [alookup_ainsert_ne _ _ _ _ h1a] at h1
      rw [alookup_ainsert_ne _ _ _ _ h2a] at h2
      exact hInv.2.2 id₁ id₂ c h1 h2

/-- Either an `Action` call leaves the registry state untouched, or it
performs exactly one fresh registration. -/
theorem Action_state_cases (st : ClientState) (p : Params) (now : Nat) :
    (Action st (some p) now).state = st ∨
    ∃ aid, alookup st.response aid = none ∧
      (Action st (some p) now).state =
        ⟨st.nextChan + 1, ainsert st.chans st.nextChan ⟨[], false⟩,
         ainsert st.response aid st.nextChan⟩ := by
  unfold Action
  by_cases hact : (alookup (normaliser p now).2 "Action").isSome
  · cases hc : alookup st.response ((alookup (normaliser p now).2 "Actionid").getD "") with
    | some c => simp [hact, hc]
    | none =>
      right
      refine ⟨(alookup (normaliser p now).2 "Actionid").getD "", hc, ?_⟩
      simp [hact, hc]
  · simp [hact]

/-- Structure eta for a state known to be in normal mode. -/
theorem LockedState_eq_of_mode {s : LockedState} (h : s.mode = LockMode.normal) :
    s = ⟨s.client, LockMode.normal⟩ := by
  obtain ⟨cl, m⟩ := s
  dsimp only at h
  subst h
  rfl

/-- Lock modes never recover: a step that ends in normal mode started in
normal mode (once the registry lock is wedged the client never returns to
normal operation). -/
theorem stepStateL_mode_mono {s : LockedState} {step : Step}
    (h : (stepStateL s step).mode = LockMode.normal) : s.mode = LockMode.normal := by
  obtain ⟨cl, m⟩ := s
  cases m with
  | normal => rfl
  | wedged =>
    exfalso
    cases step with
    | act p now => simp [stepStateL] at h
    | notify r =>
      simp only [stepStateL] at h
      cases hc : alookup cl.response r.ID with
      | none => simp [hc] at h
      | some c =>
        cases hch : alookup cl.chans c with
        | none => simp [hc, hch] at h
        | some ch =>
          by_cases hcl : ch.closed
          · simp [hc, hch, hcl] at h
          · by_cases hb : ch.buf.length < 1
            · simp [hc, hch, hcl, hb] at h
            · simp [hc, hch, hcl, hb] at h
  | writerBlocked =>
    exfalso
    cases step with
    | act p now => simp [stepStateL] at h
    | notify r => simp [stepStateL] at h
  | panicked =>
    exfalso
    cases step with
    | act p now => simp [stepStateL] at h
    | notify r => simp [stepStateL] at h

theorem runStepsL_mode_mono :
    ∀ (steps : List Step) (s : LockedState),
      (runStepsL s steps).mode = LockMode.normal → s.mode = LockMode.normal
  | [], _, h => h
  | step :: rest, s, h =>
    stepStateL_mode_mono (runStepsL_mode_mono rest (stepStateL s step) h)

/-- In normal mode a completed `notifyResponse` delivery is exactly what
the lock-aware step performs, and the client stays in normal mode. -/
theorem stepStateL_notify_delivered {s : LockedState} {r : AMIResponse}
    {st' : ClientState} (hm : s.mode = LockMode.normal)
    (h : notifyResponse s.client r = some st') :
    stepStateL s (Step.notify r) = ⟨st', LockMode.normal⟩ := by
  obtain ⟨cl, m⟩ := s
  dsimp only at hm h
  subst hm
  obtain ⟨c, ch, hc, hch, hb, hcl, rfl⟩ := notify_some_eq h
  simp [stepStateL, hc, hch, hcl, hb]

/-- Steps that are not a matching delivery and keep the lock in normal mode
preserve well-formedness and the registered slot of `aid`. -/
theorem pre_stepL {st : ClientState} {aid : String} {cid : Nat}
    (hInv : Inv st) (haid : alookup st.response aid = some cid) (s : Step)
    (hs : ∀ r : AMIResponse, s = Step.notify r → r.ID ≠ aid)
    (hmode : (stepStateL ⟨st, LockMode.normal⟩ s).mode = LockMode.normal) :
    Inv (stepStateL ⟨st, LockMode.normal⟩ s).client ∧
    alookup (stepStateL ⟨st, LockMode.normal⟩ s).client.response aid = some cid := by
  cases s with
  | act p now =>
    have hstep : stepStateL ⟨st, LockMode.normal⟩ (Step.act p now) =
        ⟨(Action st (some p) now).state, LockMode.normal⟩ := rfl
    rw [hstep]
    rcases Action_state_cases st p now with hsame | ⟨aid', haid', hfresh⟩
    · rw [hsame]
      exact ⟨hInv, haid⟩
    · rw [hfresh]
      have hne : aid ≠ aid' := by
        intro heq
        rw [heq, haid'] at haid
        exact absurd haid (by simp)
      refine ⟨act_fresh_Inv hInv haid', ?_⟩
      show alookup (ainsert st.response aid' st.nextChan) aid = some cid
      rw [alookup_ainsert_ne _ _ _ _ hne]
      exact haid
  | notify r =>
    have hrne : r.ID ≠ aid := hs r rfl
    cases hc : alookup st.response r.ID with
    | none =>
      exfalso
      have hstep : stepStateL ⟨st, LockMode.normal⟩ (Step.notify r) =
          ⟨st, LockMode.wedged⟩ := by
        simp [stepStateL, hc]
      rw [hstep] at hmode
      simp at hmode
    | some c =>
      obtain ⟨heq, hInv', _⟩ := notify_delivered hInv hc
      have hstep : stepStateL ⟨st, LockMode.normal⟩ (Step.notify r) =
          ⟨⟨st.nextChan, ainsert st.chans c ⟨[r], true⟩, aerase st.response r.ID⟩,
           LockMode.normal⟩ := stepStateL_notify_delivered rfl heq
      rw [hstep]
      refine ⟨hInv', ?_⟩
      show alookup (aerase st.response r.ID) aid = some cid
      rw [alookup_aerase_ne _ _ _ (Ne.symm hrne)]
      exact haid

theorem pre_runL {aid : String} {cid : Nat} :
    ∀ (steps : List Step) (st : ClientState), Inv st →
      alookup st.response aid = some cid → NoMatchingNotify aid steps →
      (runStepsL ⟨st, LockMode.normal⟩ steps).mode = LockMode.normal →
      Inv (runStepsL ⟨st, LockMode.normal⟩ steps).client ∧
      alookup (runStepsL ⟨st, LockMode.normal⟩ steps).client.response aid = some cid
  | [], _, hInv, haid, _, _ => ⟨hInv, haid⟩
  | s :: rest, st, hInv, haid, hnm, hmode => by
    have hmode1 : (stepStateL ⟨st, LockMode.normal⟩ s).mode = LockMode.normal :=
      runStepsL_mode_mono rest _ hmode
    have hs : ∀ r : AMIResponse, s = Step.notify r → r.ID ≠ aid :=
      fun r hr => hnm r (hr ▸ List.mem_cons_self _ _)
    obtain ⟨hInv', haid'⟩ := pre_stepL hInv haid s hs hmode1
    have hre : runStepsL (stepStateL ⟨st, LockMode.normal⟩ s) rest =
        runStepsL ⟨(stepStateL ⟨st, LockMode.normal⟩ s).client, LockMode.normal⟩ rest := by
      rw [← LockedState_eq_of_mode hmode1]
    have hmode' : (runStepsL ⟨(stepStateL ⟨st, LockMode.normal⟩ s).client,
        LockMode.normal⟩ rest).mode = LockMode.normal := by
      rw [← hre]
      exact hmode
    obtain ⟨hi, ha⟩ := pre_runL rest _ hInv' haid'
      (fun r hr => hnm r (List.mem_cons_of_mem _ hr)) hmode'
    constructor
    · show Inv (runStepsL (stepStateL ⟨st, LockMode.normal⟩ s) rest).client
      rw [hre]
      exact hi
    · show alookup (runStepsL (stepStateL ⟨st, LockMode.normal⟩ s) rest).client.response
        aid = some cid
      rw [hre]
      exact ha

/-- The allocation bound on channel handles: every channel in the heap was
allocated below the counter.  Unlike `Inv`, this survives the wedged
deliveries that complete their send but never their registry removal, so
it carries the post-delivery frame argument through arbitrary steps. -/
def ChanBound (st : ClientState) : Prop :=
  ∀ c ch, alookup st.chans c = some ch → c < st.nextChan

/-- Once no registry identifier points at channel `cid`, no step in any
lock mode ever changes that channel or registers an identifier for it. -/
theorem post_stepL {s : LockedState} {cid : Nat} {ch : RespChan}
    (hbound : ChanBound s.client)
    (hch : alookup s.client.chans cid = some ch)
    (hnr : ∀ id, alookup s.client.response id ≠ some cid) (step : Step) :
    ChanBound (stepStateL s step).client ∧
    alookup (stepStateL s step).client.chans cid = some ch ∧
    ∀ id, alookup (stepStateL s step).client.response id ≠ some cid := by
  obtain ⟨st, m⟩ := s
  dsimp only at hbound hch hnr
  cases m with
  | normal =>
    cases step with
    | act p now =>
      have hstep : stepStateL ⟨st, LockMode.normal⟩ (Step.act p now) =
          ⟨(Action st (some p) now).state, LockMode.normal⟩ := rfl
      rw [hstep]
      rcases Action_state_cases st p now with hsame | ⟨aid', haid', hfresh⟩
      · rw [hsame]
        exact ⟨hbound, hch, hnr⟩
      · rw [hfresh]
        have hcid : cid < st.nextChan := hbound _ _ hch
        refine ⟨?_, ?_, ?_⟩
        · intro c ch' hc
          revert hc
          show alookup (ainsert st.chans st.nextChan ⟨[], false⟩) c = some ch' →
            c < st.nextChan + 1
          intro hc
          by_cases hceq : c = st.nextChan
          · omega
          · rw [alookup_ainsert_ne _ _ _ _ hceq] at hc
            have := hbound _ _ hc
            omega
        · show alookup (ainsert st.chans st.nextChan ⟨[], false⟩) cid = some ch
          rw [alookup_ainsert_ne _ _ _ _ (by omega : cid ≠ st.nextChan)]
          exact hch
        · intro id
          show alookup (ainsert st.response aid' st.nextChan) id ≠ some cid
          by_cases hida : id = aid'
          · subst hida
            rw [alookup_ainsert_self]
            intro hcontra
            have : st.nextChan = cid := by simpa using hcontra
            omega
          · rw [alookup_ainsert_ne _ _ _ _ hida]
            exact hnr id
    | notify r =>
      cases hc : alookup st.response r.ID with
      | none =>
        have hstep : stepStateL ⟨st, LockMode.normal⟩ (Step.notify r) =
            ⟨st, LockMode.wedged⟩ := by
          simp [stepStateL, hc]
        rw [hstep]
        exact ⟨hbound, hch, hnr⟩
      | some c =>
        cases hch' : alookup st.chans c with
        | none =>
          have hstep : stepStateL ⟨st, LockMode.normal⟩ (Step.notify r) =
              ⟨st, LockMode.wedged⟩ := by
            simp [stepStateL, hc, hch']
          rw [hstep]
          exact ⟨hbound, hch, hnr⟩
        | some ch' =>
          have hcne : c ≠ cid := fun h => hnr r.ID (h ▸ hc)
          have hclt : c < st.nextChan := hbound _ _ hch'
          by_cases hcl : ch'.closed
          · have hstep : stepStateL ⟨st, LockMode.normal⟩ (Step.notify r) =
                ⟨st, LockMode.panicked⟩ := by
              simp [stepStateL, hc, hch', hcl]
            rw [hstep]
            exact ⟨hbound, hch, hnr⟩
          · by_cases hb : ch'.buf.length < 1
            · have hstep : stepStateL ⟨st, LockMode.normal⟩ (Step.notify r) =
                  ⟨⟨st.nextChan, ainsert st.chans c ⟨ch'.buf ++ [r], true⟩,
                    aerase st.response r.ID⟩, LockMode.normal⟩ := by
                simp [stepStateL, hc, hch', hcl, hb]
              rw [hstep]
              refine ⟨?_, ?_, ?_⟩
              · intro c₂ ch₂ hc₂
                revert hc₂
                show alookup (ainsert st.chans c ⟨ch'.buf ++ [r], true⟩) c₂ = some ch₂ →
                  c₂ < st.nextChan
                intro hc₂
                by_cases hceq : c₂ = c
                · omega
                · rw [alookup_ainsert_ne _ _ _ _ hceq] at hc₂
                  exact hbound _ _ hc₂
              · show alookup (ainsert st.chans c ⟨ch'.buf ++ [r], true⟩) cid = some ch
                rw [alookup_ainsert_ne _ _ _ _ (Ne.symm hcne)]
                exact hch
              · intro id
                show alookup (aerase st.response r.ID) id ≠ some cid
                intro hcontra
                have hne : id ≠ r.ID := by
                  intro heqid
                  rw [heqid, alookup_aerase_self] at hcontra
                  exact absurd hcontra (by simp)
                rw [alookup_aerase_ne _ _ _ hne] at hcontra
                exact hnr id hcontra
            · have hstep : stepStateL ⟨st, LockMode.normal⟩ (Step.notify r) =
                  ⟨st, LockMode.wedged⟩ := by
                simp [stepStateL, hc, hch', hcl, hb]
              rw [hstep]
              exact ⟨hbound, hch, hnr⟩
  | wedged =>
    cases step with
    | act p now =>
      exact ⟨hbound, hch, hnr⟩
    | notify r =>
      cases hc : alookup st.response r.ID with
      | none =>
        have hstep : stepStateL ⟨st, LockMode.wedged⟩ (Step.notify r) =
            ⟨st, LockMode.wedged⟩ := by
          simp [stepStateL, hc]
        rw [hstep]
        exact ⟨hbound, hch, hnr⟩
      | some c =>
        cases hch' : alookup st.chans c with
        | none =>
          have hstep : stepStateL ⟨st, LockMode.wedged⟩ (Step.notify r) =
              ⟨st, LockMode.wedged⟩ := by
            simp [stepStateL, hc, hch']
          rw [hstep]
          exact ⟨hbound, hch, hnr⟩
        | some ch' =>
          have hcne : c ≠ cid := fun h => hnr r.ID (h ▸ hc)
          have hclt : c < st.nextChan := hbound _ _ hch'
          by_cases hcl : ch'.closed
          · have hstep : stepStateL ⟨st, LockMode.wedged⟩ (Step.notify r) =
                ⟨st, LockMode.panicked⟩ := by
              simp [stepStateL, hc, hch', hcl]
            rw [hstep]
            exact ⟨hbound, hch, hnr⟩
          · by_cases hb : ch'.buf.length < 1
            · have hstep : stepStateL ⟨st, LockMode.wedged⟩ (Step.notify r) =
                  ⟨⟨st.nextChan, ainsert st.chans c ⟨ch'.buf ++ [r], true⟩,
                    st.response⟩, LockMode.writerBlocked⟩ := by
                simp [stepStateL, hc, hch', hcl, hb]
              rw [hstep]
              refine ⟨?_, ?_, hnr⟩
              · intro c₂ ch₂ hc₂
                revert hc₂
                show alookup (ainsert st.chans c ⟨ch'.buf ++ [r], true⟩) c₂ = some ch₂ →
                  c₂ < st.nextChan
                intro hc₂
                by_cases hceq : c₂ = c
                · omega
                · rw [alookup_ainsert_ne _ _ _ _ hceq] at hc₂
                  exact hbound _ _ hc₂
              · show alookup (ainsert st.chans c ⟨ch'.buf ++ [r], true⟩) cid = some ch
                rw [alookup_ainsert_ne _ _ _ _ (Ne.symm hcne)]
                exact hch
            · have hstep : stepStateL ⟨st, LockMode.wedged⟩ (Step.notify r) =
                  ⟨st, LockMode.wedged⟩ := by
                simp [stepStateL, hc, hch', hcl, hb]
              rw [hstep]
              exact ⟨hbound, hch, hnr⟩
  | writerBlocked =>
    cases step with
    | act p now => exact ⟨hbound, hch, hnr⟩
    | notify r => exact ⟨hbound, hch, hnr⟩
  | panicked =>
    cases step with
    | act p now => exact ⟨hbound, hch, hnr⟩
    | notify r => exact ⟨hbound, hch, hnr⟩

theorem post_runL {cid : Nat} {ch : RespChan} :
    ∀ (steps : List Step) (s : LockedState), ChanBound s.client →
      alookup s.client.chans cid = some ch →
      (∀ id, alookup s.client.response id ≠ some cid) →
      alookup (runStepsL s steps).client.chans cid = some ch
  | [], _, _, hch, _ => hch
  | step :: rest, s, hbound, hch, hnr => by
    obtain ⟨hb', hch', hnr'⟩ := post_stepL hbound hch hnr step
    exact post_runL rest _ hb' hch' hnr'

/-- Shape of a successful `Action` call: the returned identifier is the
normalized `Actionid`, and either the existing slot was reused with no state
change, or a fresh slot was registered at the next channel handle. -/
theorem Action_ok_cases {st : ClientState} {p : Params} {now : Nat}
    {cid : Nat} {aid : String}
    (hok : (Action st (some p) now).result = .ok (cid, aid)) :
    aid = (alookup (normaliser p now).2 "Actionid").getD "" ∧
    ((alookup st.response aid = some cid ∧ (Action st (some p) now).state = st) ∨
     (alookup st.response aid = none ∧ cid = st.nextChan ∧
      (Action st (some p) now).state =
        ⟨st.nextChan + 1, ainsert st.chans st.nextChan ⟨[], false⟩,
         ainsert st.response aid st.nextChan⟩)) := by
  by_cases hact : (alookup (normaliser p now).2 "Action").isSome
  · cases hc : alookup st.response ((alookup (normaliser p now).2 "Actionid").getD "") with
    | some c =>
      have hstate : (Action st (some p) now).state = st := by
        simp [Action, hact, hc]
      have hres : (Action st (some p) now).result =
          .ok (c, (alookup (normaliser p now).2 "Actionid").getD "") := by
        simp [Action, hact, hc]
      rw [hres] at hok
      have hpair : c = cid ∧ (alookup (normaliser p now).2 "Actionid").getD "" = aid := by
        simpa using hok
      obtain ⟨rfl, hid⟩ := hpair
      exact ⟨hid.symm, Or.inl ⟨hid ▸ hc, hstate⟩⟩
    | none =>
      have hstate : (Action st (some p) now).state =
          ⟨st.nextChan + 1, ainsert st.chans st.nextChan ⟨[], false⟩,
           ainsert st.response ((alookup (normaliser p now).2 "Actionid").getD "")
             st.nextChan⟩ := by
        simp [Action, hact, hc]
      have hres : (Action st (some p) now).result =
          .ok (st.nextChan, (alookup (normaliser p now).2 "Actionid").getD "") := by
        simp [Action, hact, hc]
      rw [hres] at hok
      have hpair : st.nextChan = cid ∧
          (alookup (normaliser p now).2 "Actionid").getD "" = aid := by
        simpa using hok
      obtain ⟨hcid, hid⟩ := hpair
      rw [hid] at hstate
      exact ⟨hid.symm, Or.inr ⟨hid ▸ hc, hcid.symm, hstate⟩⟩
  · simp [Action, hact] at hok

/-- After a successful `Action` call from a well-formed state, the state is
well-formed and the returned identifier is registered to the returned
channel. -/
theorem Action_ok {st : ClientState} {p : Params} {now : Nat}
    {cid : Nat} {aid : String} (hInv : Inv st)
    (hok : (Action st (some p) now).result = .ok (cid, aid)) :
    Inv (Action st (some p) now).state ∧
    alookup (Action st (some p) now).state.response aid = some cid := by
  rcases (Action_ok_cases hok).2 with ⟨hreg, hsame⟩ | ⟨hnew, rfl, hfresh⟩
  · rw [hsame]
    exact ⟨hInv, hreg⟩
  · rw [hfresh]
    refine ⟨act_fresh_Inv hInv hnew, ?_⟩
    dsimp only
    exact alookup_ainsert_self _ _ _

/-! ## Claim theorems -/

/-- C1: the spec states that a response whose action identifier has no
registered delivery slot is silently dropped by `notifyResponse`, with no
error and all other pending slots unaffected and still deliverable.  The
code has no presence check: `client.response[response.ID]` on a missing key
yields the nil channel and the spawned goroutine blocks forever in the send
(modelled as the `none` outcome), so the delivery never completes as a
drop.  Evaluated at the failing input — registry holding only a slot for
`"Y"`, response for the unregistered `"X"` — the outcome is the blocked
outcome, while a response for the registered `"Y"` is delivered normally. -/
theorem c1_unsolicited_response_blocks :
    notifyResponse ⟨1, [(0, ⟨[], false⟩)], [("Y", 0)]⟩ ⟨"X", "Success", []⟩ = none ∧
    notifyResponse ⟨1, [(0, ⟨[], false⟩)], [("Y", 0)]⟩ ⟨"Y", "Success", []⟩ =
      some ⟨1, [(0, ⟨[⟨"Y", "Success", []⟩], true⟩)], []⟩ := by
  exact ⟨rfl, rfl⟩

/-- C2 (amended): for a valid submitted action, provided every response
processed before the matching one finds its registered slot — so no
delivery goroutine ever wedges the registry's read lock (the C1 failing
input does not occur) and the lock mode stays normal — exactly one response
value is delivered to the channel returned by `Action`, the channel is then
closed, the action identifier is gone from the registry immediately after
the delivery, and no later step, in any lock mode it may drive the client
into, ever delivers to that channel again. -/
theorem c2_exactly_once_delivery
    (st₀ : ClientState) (p : Params) (now : Nat) (cid : Nat) (aid : String)
    (pre post : List Step) (r : AMIResponse)
    (hInv : Inv st₀)
    (hok : (Action st₀ (some p) now).result = .ok (cid, aid))
    (hr : r.ID = aid)
    (hpre : NoMatchingNotify aid pre)
    (hmode : (runStepsL ⟨(Action st₀ (some p) now).state, LockMode.normal⟩ pre).mode
      = LockMode.normal) :
    notifyResponse
        (runStepsL ⟨(Action st₀ (some p) now).state, LockMode.normal⟩ pre).client r =
      some (stepStateL
        (runStepsL ⟨(Action st₀ (some p) now).state, LockMode.normal⟩ pre)
        (Step.notify r)).client ∧
    (stepStateL (runStepsL ⟨(Action st₀ (some p) now).state, LockMode.normal⟩ pre)
        (Step.notify r)).mode = LockMode.normal ∧
    alookup (stepStateL
        (runStepsL ⟨(Action st₀ (some p) now).state, LockMode.normal⟩ pre)
        (Step.notify r)).client.chans cid = some ⟨[r], true⟩ ∧
    alookup (stepStateL
        (runStepsL ⟨(Action st₀ (some p) now).state, LockMode.normal⟩ pre)
        (Step.notify r)).client.response aid = none ∧
    alookup (runStepsL (stepStateL
        (runStepsL ⟨(Action st₀ (some p) now).state, LockMode.normal⟩ pre)
        (Step.notify r)) post).client.chans cid = some ⟨[r], true⟩ := by
  obtain ⟨hInv₁, haid₁⟩ := Action_ok hInv hok
  obtain ⟨hInv₂, haid₂⟩ := pre_runL pre _ hInv₁ haid₁ hpre hmode
  have hcr : alookup
      (runStepsL ⟨(Action st₀ (some p) now).state, LockMode.normal⟩ pre).client.response
      r.ID = some cid := by
    rw [hr]
    exact haid₂
  obtain ⟨heq, hInv₃, hnr₃⟩ := notify_delivered hInv₂ hcr
  have hstep : stepStateL
      (runStepsL ⟨(Action st₀ (some p) now).state, LockMode.normal⟩ pre)
      (Step.notify r) =
      ⟨⟨(runStepsL ⟨(Action st₀ (some p) now).state, LockMode.normal⟩ pre).client.nextChan,
        ainsert (runStepsL ⟨(Action st₀ (some p) now).state,
          LockMode.normal⟩ pre).client.chans cid ⟨[r], true⟩,
        aerase (runStepsL ⟨(Action st₀ (some p) now).state,
          LockMode.normal⟩ pre).client.response r.ID⟩, LockMode.normal⟩ :=
    stepStateL_notify_delivered hmode heq
  have hcidlt : cid <
      (runStepsL ⟨(Action st₀ (some p) now).state, LockMode.normal⟩ pre).client.nextChan :=
    (hInv₂.1 _ _ haid₂).1
  refine ⟨?_, ?_, ?_, ?_, ?_⟩
  · rw [hstep]
    exact heq
  · rw [hstep]
  · rw [hstep]
    exact alookup_ainsert_self _ _ _
  · rw [hstep]
    show alookup (aerase (runStepsL ⟨(Action st₀ (some p) now).state,
      LockMode.normal⟩ pre).client.response r.ID) aid = none
    rw [← hr]
    exact alookup_aerase_self _ _
  · rw [hstep]
    refine post_runL post _ ?_ (alookup_ainsert_self _ _ _) hnr₃
    intro c₂ ch₂ hc₂
    revert hc₂
    show alookup (ainsert (runStepsL ⟨(Action st₀ (some p) now).state,
        LockMode.normal⟩ pre).client.chans cid ⟨[r], true⟩) c₂ = some ch₂ →
      c₂ < (runStepsL ⟨(Action st₀ (some p) now).state,
        LockMode.normal⟩ pre).client.nextChan
    intro hc₂
    by_cases hceq : c₂ = cid
    · omega
    · rw [alookup_ainsert_ne _ _ _ _ hceq] at hc₂
      exact hInv₂.2.1 _ _ hc₂

/-- Witness for C2's amended statement: a concrete submission and matching
response, with empty interleavings (lock mode trivially stays normal). -/
theorem c2_exactly_once_delivery_witness :
    notifyResponse (runStepsL ⟨(Action ⟨0, [], []⟩
        (some [("action", "ping"), ("actionid", "42")]) 0).state, LockMode.normal⟩ []).client
        ⟨"42", "Success", []⟩ =
      some (stepStateL (runStepsL ⟨(Action ⟨0, [], []⟩
        (some [("action", "ping"), ("actionid", "42")]) 0).state, LockMode.normal⟩ [])
        (Step.notify ⟨"42", "Success", []⟩)).client ∧
    (stepStateL (runStepsL ⟨(Action ⟨0, [], []⟩
        (some [("action", "ping"), ("actionid", "42")]) 0).state, LockMode.normal⟩ [])
        (Step.notify ⟨"42", "Success", []⟩)).mode = LockMode.normal ∧
    alookup (stepStateL (runStepsL ⟨(Action ⟨0, [], []⟩
        (some [("action", "ping"), ("actionid", "42")]) 0).state, LockMode.normal⟩ [])
        (Step.notify ⟨"42", "Success", []⟩)).client.chans 0 =
      some ⟨[⟨"42", "Success", []⟩], true⟩ ∧
    alookup (stepStateL (runStepsL ⟨(Action ⟨0, [], []⟩
        (some [("action", "ping"), ("actionid", "42")]) 0).state, LockMode.normal⟩ [])
        (Step.notify ⟨"42", "Success", []⟩)).client.response "42" = none ∧
    alookup (runStepsL (stepStateL (runStepsL ⟨(Action ⟨0, [], []⟩
        (some [("action", "ping"), ("actionid", "42")]) 0).state, LockMode.normal⟩ [])
        (Step.notify ⟨"42", "Success", []⟩)) []).client.chans 0 =
      some ⟨[⟨"42", "Success", []⟩], true⟩ :=
  c2_exactly_once_delivery ⟨0, [], []⟩ [("action", "ping"), ("actionid", "42")]
    0 0 "42" [] [] ⟨"42", "Success", []⟩
    (by simp [Inv, alookup]) rfl rfl
    (fun r h => absurd h (List.not_mem_nil _)) rfl

/-- C2 counterexample to the claim as stated: submit the valid action with
identifier "42", then let the reader process one unsolicited response
(identifier "X", the C1 failing input) before the matching one.  The
unsolicited delivery wedges the registry's read lock; the matching delivery
still sends the response and closes the channel (its `RLock` is shared with
the stuck reader), but it then blocks forever at `Lock()` before its
`delete`, so after that delivery the identifier "42" is STILL present in
the pending-action registry — "after that delivery the action identifier is
no longer present in the pending-action registry map" is false of the
program.  A writer now waits forever, and a subsequent `Action` call
performs nothing. -/
theorem c2_counterexample :
    alookup (runStepsL ⟨(Action ⟨0, [], []⟩
        (some [("action", "ping"), ("actionid", "42")]) 0).state, LockMode.normal⟩
        [Step.notify ⟨"X", "Success", []⟩, Step.notify ⟨"42", "Success", []⟩]).client.chans 0 =
      some ⟨[⟨"42", "Success", []⟩], true⟩ ∧
    alookup (runStepsL ⟨(Action ⟨0, [], []⟩
        (some [("action", "ping"), ("actionid", "42")]) 0).state, LockMode.normal⟩
        [Step.notify ⟨"X", "Success", []⟩, Step.notify ⟨"42", "Success", []⟩]).client.response
        "42" = some 0 ∧
    (runStepsL ⟨(Action ⟨0, [], []⟩
        (some [("action", "ping"), ("actionid", "42")]) 0).state, LockMode.normal⟩
        [Step.notify ⟨"X", "Success", []⟩, Step.notify ⟨"42", "Success", []⟩]).mode =
      LockMode.writerBlocked ∧
    stepStateL (runStepsL ⟨(Action ⟨0, [], []⟩
        (some [("action", "ping"), ("actionid", "42")]) 0).state, LockMode.normal⟩
        [Step.notify ⟨"X", "Success", []⟩, Step.notify ⟨"42", "Success", []⟩])
        (Step.act [("action", "status"), ("actionid", "7")] 1) =
      runStepsL ⟨(Action ⟨0, [], []⟩
        (some [("action", "ping"), ("actionid", "42")]) 0).state, LockMode.normal⟩
        [Step.notify ⟨"X", "Success", []⟩, Step.notify ⟨"42", "Success", []⟩] :=
  ⟨rfl, rfl, rfl, rfl⟩

/-- C3 (amended): calling `Action` with a nil map, or with a map no key of
which normalizes to `Action`, returns the invalid-parameters error, writes
nothing to the transport, registers no delivery slot and leaves the client
state unchanged; however, for a non-nil map the caller's map object has
still been emptied in place by the normaliser (the side effect the original
claim's "no side effects occur" denies). -/
theorem c3_invalid_params_rejected (st : ClientState) (now : Nat) :
    Action st none now = ⟨st, none, .error .errInvalidParams, []⟩ ∧
    ∀ p : Params, (∀ kv ∈ p, normKey kv.1 ≠ "Action") →
      (Action st (some p) now).result = .error .errInvalidParams ∧
      (Action st (some p) now).state = st ∧
      (Action st (some p) now).trace = [] ∧
      (Action st (some p) now).callerMap = some [] := by
  refine ⟨rfl, ?_⟩
  intro p hp
  have hnone := normaliser_action_none now hp
  have hres := normaliser_residual p now
  refine ⟨?_, ?_, ?_, ?_⟩ <;> simp [Action, hnone, hres]

/-- Witness for C3 at a concrete state and map. -/
theorem c3_invalid_params_rejected_witness :
    (∀ kv ∈ ([("foo", "bar")] : Params), normKey kv.1 ≠ "Action") ∧
    (Action ⟨1, [], [("Q", 0)]⟩ (some [("foo", "bar")]) 5).result
      = .error .errInvalidParams ∧
    (Action ⟨1, [], [("Q", 0)]⟩ (some [("foo", "bar")]) 5).state = ⟨1, [], [("Q", 0)]⟩ ∧
    (Action ⟨1, [], [("Q", 0)]⟩ (some [("foo", "bar")]) 5).trace = [] ∧
    (Action ⟨1, [], [("Q", 0)]⟩ (some [("foo", "bar")]) 5).callerMap = some [] :=
  ⟨by decide, (c3_invalid_params_rejected ⟨1, [], [("Q", 0)]⟩ 5).2
    [("foo", "bar")] (by decide)⟩

/-- C3 counterexample to the claim as stated: at the concrete non-nil map
`{"foo": "bar"}` (no `Action` key under any casing) the call is rejected
with no write and no registry change, yet "no side effects occur" is false:
the caller's map object has been emptied in place and no longer equals the
map that was passed in. -/
theorem c3_counterexample :
    (Action ⟨0, [], []⟩ (some [("foo", "bar")]) 0).result = .error .errInvalidParams ∧
    (Action ⟨0, [], []⟩ (some [("foo", "bar")]) 0).callerMap = some [] ∧
    (Action ⟨0, [], []⟩ (some [("foo", "bar")]) 0).callerMap ≠ some [("foo", "bar")] := by
  refine ⟨rfl, rfl, ?_⟩
  intro h
  have : ([] : Params) = [("foo", "bar")] := by
    have h0 : (Action ⟨0, [], []⟩ (some [("foo", "bar")]) 0).callerMap = some [] := rfl
    rw [h0] at h
    exact Option.some.inj h
  exact absurd this (by simp)

/-- C4: within one successful `Action` call the delivery-slot registration
(if any) appears strictly before the transport write in the effect trace;
when a slot for the identifier already exists it is reused — the same
channel is returned and the state is unchanged — and after the call the
identifier maps to exactly the returned channel. -/
theorem c4_register_before_write
    (st : ClientState) (p : Params) (now : Nat) (cid : Nat) (aid : String)
    (hok : (Action st (some p) now).result = .ok (cid, aid)) :
    (∃ out,
      (alookup st.response aid = none ∧
        (Action st (some p) now).trace =
          [ActionEvent.registered aid cid, ActionEvent.wrote out]) ∨
      (alookup st.response aid = some cid ∧
        (Action st (some p) now).trace = [ActionEvent.wrote out] ∧
        (Action st (some p) now).state = st)) ∧
    (∀ i j id c out,
      (Action st (some p) now).trace.get? i = some (ActionEvent.registered id c) →
      (Action st (some p) now).trace.get? j = some (ActionEvent.wrote out) →
      i < j) ∧
    alookup (Action st (some p) now).state.response aid = some cid := by
  by_cases hact : (alookup (normaliser p now).2 "Action").isSome
  · cases hc : alookup st.response ((alookup (normaliser p now).2 "Actionid").getD "") with
    | some c =>
      have hres : (Action st (some p) now).result =
          .ok (c, (alookup (normaliser p now).2 "Actionid").getD "") := by
        simp [Action, hact, hc]
      have htrace : (Action st (some p) now).trace =
          [ActionEvent.wrote (serializeParams (normaliser p now).2)] := by
        simp [Action, hact, hc]
      have hstate : (Action st (some p) now).state = st := by
        simp [Action, hact, hc]
      rw [hres] at hok
      have hpair : c = cid ∧ (alookup (normaliser p now).2 "Actionid").getD "" = aid := by
        simpa using hok
      obtain ⟨rfl, hid⟩ := hpair
      refine ⟨⟨serializeParams (normaliser p now).2,
        Or.inr ⟨hid ▸ hc, htrace, hstate⟩⟩, ?_, ?_⟩
      · intro i j id c' out hi _
        rw [htrace] at hi
        cases i with
        | zero => simp at hi
        | succ n => simp at hi
      · rw [hstate]
        exact hid ▸ hc
    | none =>
      have hres : (Action st (some p) now).result =
          .ok (st.nextChan, (alookup (normaliser p now).2 "Actionid").getD "") := by
        simp [Action, hact, hc]
      have htrace : (Action st (some p) now).trace =
          [ActionEvent.registered ((alookup (normaliser p now).2 "Actionid").getD "")
            st.nextChan,
           ActionEvent.wrote (serializeParams (normaliser p now).2)] := by
        simp [Action, hact, hc]
      have hstate : (Action st (some p) now).state =
          ⟨st.nextChan + 1, ainsert st.chans st.nextChan ⟨[], false⟩,
           ainsert st.response ((alookup (normaliser p now).2 "Actionid").getD "")
             st.nextChan⟩ := by
        simp [Action, hact, hc]
      rw [hres] at hok
      have hpair : st.nextChan = cid ∧
          (alookup (normaliser p now).2 "Actionid").getD "" = aid := by
        simpa using hok
      obtain ⟨hcid, hid⟩ := hpair
      refine ⟨⟨serializeParams (normaliser p now).2,
        Or.inl ⟨hid ▸ hc, by rw [htrace, hid, hcid]⟩⟩, ?_, ?_⟩
      · intro i j id c' out hi hj
        rw [htrace] at hi hj
        cases j with
        | zero => simp at hj
        | succ m =>
          cases i with
          | zero => exact Nat.succ_pos m
          | succ n =>
            exfalso
            cases n with
            | zero => simp at hi
            | succ k => simp at hi
      · rw [hstate]
        dsimp only
        rw [hid, hcid]
        exact alookup_ainsert_self _ _ _
  · simp [Action, hact] at hok

/-- Witness for C4: a fresh registration followed by the write. -/
theorem c4_register_before_write_witness :
    (∃ out,
      (alookup (⟨0, [], []⟩ : ClientState).response "9" = none ∧
        (Action ⟨0, [], []⟩ (some [("action", "ping"), ("actionid", "9")]) 0).trace =
          [ActionEvent.registered "9" 0, ActionEvent.wrote out]) ∨
      (alookup (⟨0, [], []⟩ : ClientState).response "9" = some 0 ∧
        (Action ⟨0, [], []⟩ (some [("action", "ping"), ("actionid", "9")]) 0).trace =
          [ActionEvent.wrote out] ∧
        (Action ⟨0, [], []⟩ (some [("action", "ping"), ("actionid", "9")]) 0).state =
          ⟨0, [], []⟩)) ∧
    (∀ i j id c out,
      (Action ⟨0, [], []⟩ (some [("action", "ping"), ("actionid", "9")]) 0).trace.get? i =
        some (ActionEvent.registered id c) →
      (Action ⟨0, [], []⟩ (some [("action", "ping"), ("actionid", "9")]) 0).trace.get? j =
        some (ActionEvent.wrote out) →
      i < j) ∧
    alookup (Action ⟨0, [], []⟩
      (some [("action", "ping"), ("actionid", "9")]) 0).state.response "9" = some 0 :=
  c4_register_before_write ⟨0, [], []⟩ [("action", "ping"), ("actionid", "9")] 0 0 "9" rfl

/-- C5: on every raw header mapping, an `Event` header makes the loop body
publish exactly the event built from it (identifier from the Event header,
privilege list split on comma, all remaining headers as the field map); a
message with an Event header and no Response header is classified as an
event only, with no delivery to any pending slot; and the response check is
still evaluated independently — a Response header always triggers delivery
regardless of the Event header. -/
theorem c5_event_classification (st : ClientState) (data : MIMEHeader) :
    (hget data "Event" ≠ "" →
      (processMessage st data).events =
        [⟨hget data "Event", goSplitComma (hget data "Privilege"),
          (data.filter (fun kv => !(kv.1 == "Event" || kv.1 == "Privilege"))).map
            (fun kv => (kv.1, kv.2.headD ""))⟩]) ∧
    (hget data "Event" ≠ "" → hget data "Response" = "" →
      (processMessage st data).outcome = NotifyOutcome.noResponse) ∧
    (hget data "Response" ≠ "" →
      (processMessage st data).outcome ≠ NotifyOutcome.noResponse) := by
  refine ⟨?_, ?_, ?_⟩
  · intro hev
    simp [processMessage, newEvent, hev]
  · intro _ hresp
    simp [processMessage, newResponse, hresp]
  · intro hresp
    simp only [processMessage, newResponse, if_neg hresp]
    cases notifyResponse st ⟨hget data "Actionid", hget data "Response",
        (data.filter (fun kv => !(kv.1 == "Response"))).map
          (fun kv => (kv.1, kv.2.headD ""))⟩ with
    | none => simp
    | some st' => simp

/-- Witness for C5: a PeerStatus event message with no Response header. -/
theorem c5_event_classification_witness :
    (processMessage ⟨0, [], []⟩
      [("Event", ["PeerStatus"]), ("Privilege", ["system,all"]), ("Peer", ["SIP/1"])]).events
      = [⟨"PeerStatus", ["system", "all"], [("Peer", "SIP/1")]⟩] ∧
    (processMessage ⟨0, [], []⟩
      [("Event", ["PeerStatus"]), ("Privilege", ["system,all"]), ("Peer", ["SIP/1"])]).outcome
      = NotifyOutcome.noResponse := by
  have h := c5_event_classification ⟨0, [], []⟩
    [("Event", ["PeerStatus"]), ("Privilege", ["system,all"]), ("Peer", ["SIP/1"])]
  refine ⟨?_, h.2.1 (by decide) (by decide)⟩
  rw [h.1 (by decide)]
  rfl

/-- C6: the reader's failure classification — connection-aborted, reset,
refused and end-of-stream go to the network-error channel and the reader
then blocks on the reconnect signal before reading again; every other read
failure goes to the general error channel and the loop continues without
blocking. -/
theorem c6_read_error_classification :
    classifyReadError ReadError.econnaborted = (ErrorSink.netError, true) ∧
    classifyReadError ReadError.econnreset = (ErrorSink.netError, true) ∧
    classifyReadError ReadError.econnrefused = (ErrorSink.netError, true) ∧
    classifyReadError ReadError.eof = (ErrorSink.netError, true) ∧
    ∀ msg, classifyReadError (ReadError.other msg) = (ErrorSink.generalError, false) :=
  ⟨rfl, rfl, rfl, rfl, fun _ => rfl⟩

/-- C7: every transmitted header entry is either the generated `Actionid`
or the Title(ToLower(name))/TrimSpace(value) normalization of an input
entry; the `Actionid` is generated from the clock exactly when no input key
normalizes to `Actionid`; and submitting
`{"eventmask": "on", "ACTION": "Events"}` transmits the headers
`Action: Events` and `Eventmask: on`. -/
theorem c7_normalization (p : Params) (now : Nat) :
    (∀ kv' ∈ (normaliser p now).2,
      kv' = ("Actionid", sprintfD now) ∨
      ∃ kv ∈ p, kv'.1 = normKey kv.1 ∧ kv'.2 = goTrimSpace kv.2) ∧
    ((∀ kv ∈ p, normKey kv.1 ≠ "Actionid") →
      alookup (normaliser p now).2 "Actionid" = some (sprintfD now)) ∧
    alookup (normaliser [("eventmask", "on"), ("ACTION", "Events")] now).2 "Action"
      = some "Events" ∧
    alookup (normaliser [("eventmask", "on"), ("ACTION", "Events")] now).2 "Eventmask"
      = some "on" := by
  exact ⟨fun kv' h => mem_normaliser h,
    fun h => normaliser_actionid_generated now h, rfl, rfl⟩

/-- Witness for C7 at the example map and clock reading 7. -/
theorem c7_normalization_witness :
    (∀ kv ∈ ([("eventmask", "on"), ("ACTION", "Events")] : Params),
      normKey kv.1 ≠ "Actionid") ∧
    alookup (normaliser [("eventmask", "on"), ("ACTION", "Events")] 7).2 "Actionid"
      = some (sprintfD 7) ∧
    alookup (normaliser [("eventmask", "on"), ("ACTION", "Events")] 7).2 "Action"
      = some "Events" :=
  ⟨by decide,
   (c7_normalization [("eventmask", "on"), ("ACTION", "Events")] 7).2.1 (by decide),
   (c7_normalization [("eventmask", "on"), ("ACTION", "Events")] 7).2.2.1⟩

/-- C8 (amended): the auto-generated identifier is the decimal rendering of
the submission's clock reading, so two auto-generating submissions receive
distinct identifiers exactly when their clock readings differ; nothing in
the code guarantees distinctness when the nanosecond clock yields the same
reading for back-to-back calls. -/
theorem c8_ids_distinct_iff_clock_distinct
    (p q : Params) (n₁ n₂ : Nat)
    (hp : ∀ kv ∈ p, normKey kv.1 ≠ "Actionid")
    (hq : ∀ kv ∈ q, normKey kv.1 ≠ "Actionid") :
    alookup (normaliser p n₁).2 "Actionid" = some (sprintfD n₁) ∧
    alookup (normaliser q n₂).2 "Actionid" = some (sprintfD n₂) ∧
    (alookup (normaliser p n₁).2 "Actionid" = alookup (normaliser q n₂).2 "Actionid"
      ↔ n₁ = n₂) := by
  refine ⟨normaliser_actionid_generated n₁ hp, normaliser_actionid_generated n₂ hq, ?_⟩
  rw [normaliser_actionid_generated n₁ hp, normaliser_actionid_generated n₂ hq]
  constructor
  · intro h
    exact sprintfD_injective (Option.some.inj h)
  · intro h
    rw [h]

/-- Witness for C8's amended statement with distinct clock readings. -/
theorem c8_ids_distinct_iff_clock_distinct_witness :
    alookup (normaliser [("action", "a")] 3).2 "Actionid" = some (sprintfD 3) ∧
    alookup (normaliser [("action", "b")] 4).2 "Actionid" = some (sprintfD 4) ∧
    (alookup (normaliser [("action", "a")] 3).2 "Actionid" =
      alookup (normaliser [("action", "b")] 4).2 "Actionid" ↔ 3 = 4) :=
  c8_ids_distinct_iff_clock_distinct [("action", "a")] [("action", "b")] 3 4
    (by decide) (by decide)

/-- C8 counterexample to the claim as stated: two distinct submissions
whose identifiers are auto-generated at the same clock reading receive the
same identifier — back-to-back submissions within one clock tick are not
distinguishable. -/
theorem c8_counterexample :
    alookup (normaliser [("action", "ping")] 7).2 "Actionid" =
      alookup (normaliser [("action", "status")] 7).2 "Actionid" ∧
    alookup (normaliser [("action", "ping")] 7).2 "Actionid" = some (sprintfD 7) ∧
    ([("action", "ping")] : Params) ≠ [("action", "status")] := by
  exact ⟨rfl, rfl, by decide⟩

/-- C9 (amended): a banner line that does not contain the expected service
name makes `NewConn` return the protocol-identity error `errNoAMI`, but the
raw connection is left open — no teardown is performed on that path; a
banner containing the name makes the connect succeed. -/
theorem c9_banner_check (label : String) :
    (goContains label "Asterisk Call Manager" = false →
      NewConn (.ok label) = ⟨.error .errNoAMI, false⟩) ∧
    (goContains label "Asterisk Call Manager" = true →
      NewConn (.ok label) = ⟨.ok (), false⟩) := by
  constructor <;> intro h <;> simp [NewConn, h]

/-- Witness for C9 on a matching and a non-matching banner. -/
theorem c9_banner_check_witness :
    NewConn (.ok "Asterisk Call Manager/1.1") = ⟨.ok (), false⟩ ∧
    NewConn (.ok "220 ESMTP ready") = ⟨.error .errNoAMI, false⟩ :=
  ⟨(c9_banner_check "Asterisk Call Manager/1.1").2 (by decide),
   (c9_banner_check "220 ESMTP ready").1 (by decide)⟩

/-- C9 counterexample to the claim as stated: at a concrete non-matching
banner the call is rejected with the protocol-identity error, but the
connection is not torn down (the code returns without closing it). -/
theorem c9_counterexample :
    (NewConn (.ok "220 smtp ready")).result = .error .errNoAMI ∧
    (NewConn (.ok "220 smtp ready")).closedConn = false :=
  ⟨rfl, rfl⟩

/-- C10: the normaliser deletes every original key from the map object the
caller supplied and builds the normalized headers in a fresh map, so after
any `Action` call on a non-nil map the caller's map object holds none of
its original entries. -/
theorem c10_caller_map_emptied (st : ClientState) (p : Params) (now : Nat) :
    (normaliser p now).1 = [] ∧
    (Action st (some p) now).callerMap = some [] := by
  refine ⟨normaliser_residual p now, ?_⟩
  by_cases hact : (alookup (normaliser p now).2 "Action").isSome
  · cases hc : alookup st.response ((alookup (normaliser p now).2 "Actionid").getD "") with
    | some c => simp [Action, hact, hc, normaliser_residual]
    | none => simp [Action, hact, hc, normaliser_residual]
  · simp [Action, hact, normaliser_residual]

end Gami
